import Mathlib

/-!
Shallow embedding of the `struct-validation` crates.

`struct-validation-core` provides `ValidationError` (a field path plus a
message), the constructor `ValidationError::new`, the path builder
`ValidationError::add_prefix`, the `Validate` trait returning
`Vec<ValidationError>`, and the conditional-append helper macro
`validate!`.

`struct-validation-derive` provides `#[derive(Validate)]`, which for a
struct with named fields generates a `validate` body that, for each field
in declaration order, calls the field's `validate`, prefixes every
resulting error with the field's declared name, chains the per-field
iterators left to right (or uses the empty iterator when there are no
fields), and collects the chain into one `Vec`.
-/

/-- `ValidationError` from `struct-validation-core`: the name (path) of the
field that failed validation together with a message describing the
failure. -/
structure ValidationError where
  field : String
  message : String
deriving DecidableEq, Repr

namespace ValidationError

/-- `ValidationError::new(field, message)`: stores both strings verbatim. -/
def new (field message : String) : ValidationError :=
  { field := field, message := message }

/-- `ValidationError::add_prefix(prefix)`: replaces `field` by
`format!("{}.{}", prefix, field)`, i.e. the prefix, a dot, then the old
field.  The Rust method mutates in place; it is modelled here as returning
the updated error.  `message` is not touched. -/
def add_prefix (e : ValidationError) (pre : String) : ValidationError :=
  { e with field := pre ++ "." ++ e.field }

end ValidationError

/-- The `validate!` macro from `struct-validation-core`:
`validate!(vec, test, field_name, message)` expands to
`if test { vec.push(ValidationError::new(field_name, message)); }`.
Modelled as a function from the accumulating list (and the already
evaluated test, field and message) to the updated list; `Vec::push`
appends at the end. -/
def validateBang (vec : List ValidationError) (test : Bool)
    (fieldName message : String) : List ValidationError :=
  if test then vec ++ [ValidationError.new fieldName message] else vec

/-- One named member of a struct, as `#[derive(Validate)]` sees it: the
declared field name (as a string, for error prefixing) and the validator
invoked by the generated code as `self.#field_name.validate()`.  The
validator is a function of the whole struct value so that the projection
to the member is part of it. -/
structure Member (α : Type) where
  name : String
  validate : α → List ValidationError

/-- The per-member stream the generated code builds for one field:
`self.#field_name.validate().into_iter().map(|mut e| { e.add_prefix(#field_name_str); e })`. -/
def memberErrors {α : Type} (m : Member α) (v : α) : List ValidationError :=
  (m.validate v).map (fun e => ValidationError.add_prefix e m.name)

/-- The body `#[derive(Validate)]` generates for a struct whose named
members are `members` in declaration order: the per-member streams are
combined by `validator_iters.reduce(|acc, stream| acc.chain(stream))`
(a left-associated chain starting from the first member's stream), with
`std::iter::empty()` when there are no members, and the result is
collected into a `Vec`. -/
def derive_validate {α : Type} (members : List (Member α)) (v : α) :
    List ValidationError :=
  match members with
  | [] => []
  | m :: ms => ms.foldl (fun acc m2 => acc ++ memberErrors m2 v) (memberErrors m v)

/-- A member whose validator is given as a relation between the struct
value and a possible result list, so that determinism of the member's
`validate` is a hypothesis about the relation rather than being built into
the model. -/
structure MemberRel (α : Type) where
  name : String
  rel : α → List ValidationError → Prop

/-- Big-step relation for one call of the derived `validate`: member by
member in declaration order, some result of the member's validator is
prefixed with the member's name and chained onto the rest. -/
inductive DerivedValidates {α : Type} :
    List (MemberRel α) → α → List ValidationError → Prop
  | nil (v : α) : DerivedValidates [] v []
  | cons {m : MemberRel α} {ms : List (MemberRel α)} {v : α}
      {es rest : List ValidationError} :
      m.rel v es → DerivedValidates ms v rest →
      DerivedValidates (m :: ms) v
        ((es.map (fun e => ValidationError.add_prefix e m.name)) ++ rest)

/-- The left-associated chain produced by `reduce` equals the ordered
concatenation of the per-member streams started from any accumulator. -/
theorem foldl_append_eq_join {α : Type} (v : α) (ms : List (Member α))
    (acc : List ValidationError) :
    ms.foldl (fun a m2 => a ++ memberErrors m2 v) acc
      = acc ++ (ms.map (fun m => memberErrors m v)).flatten := by
  induction ms generalizing acc with
  | nil => simp
  | cons m ms ih => simp [List.foldl_cons, ih, List.append_assoc]

/-- The generated body collects exactly the concatenation, in member
declaration order, of the prefixed per-member error lists. -/
theorem derive_validate_eq_join {α : Type} (members : List (Member α)) (v : α) :
    derive_validate members v
      = (members.map (fun m => memberErrors m v)).flatten := by
  cases members with
  | nil => rfl
  | cons m ms => simp [derive_validate, foldl_append_eq_join]

/-- Determinism of one derived call, with the member validators given as
relations: if every member's validator relates the value to at most one
result list, the derived relation does too. -/
theorem derivedValidates_det_aux {α : Type} {ms : List (MemberRel α)} {v : α}
    {r : List ValidationError} (h1 : DerivedValidates ms v r) :
    ∀ r', (∀ m ∈ ms, ∀ es es', m.rel v es → m.rel v es' → es = es') →
      DerivedValidates ms v r' → r = r' := by
  induction h1 with
  | nil => intro r' _ h2; cases h2; rfl
  | cons hm hrest ih =>
      intro r' hdet h2
      cases h2 with
      | cons hm2 hrest2 =>
          have he := hdet _ (List.mem_cons_self _ _) _ _ hm hm2
          have hr := ih _
            (fun m hmem es es' a b => hdet m (List.mem_cons_of_mem _ hmem) es es' a b)
            hrest2
          rw [he, hr]

/-- C1: the derived `validate` returns exactly the concatenation, in member
declaration order, of the members' validate results with each error
prefixed by that member's declared name — no deduplication, no reordering,
no filtering; in particular, for a composite with members (a, b) that each
fail with one error, it returns exactly the two errors in order. -/
theorem derived_concat_in_order {α : Type} (members : List (Member α)) (v : α)
    (va vb : α → List ValidationError) (w : α) (ea eb : ValidationError)
    (ha : va w = [ea]) (hb : vb w = [eb]) :
    derive_validate members v
        = (members.map (fun m =>
            (m.validate v).map (fun e => ValidationError.add_prefix e m.name))).flatten ∧
    derive_validate [⟨"a", va⟩, ⟨"b", vb⟩] w
        = [ ValidationError.add_prefix ea "a", ValidationError.add_prefix eb "b"] := by
  constructor
  · simpa [memberErrors] using derive_validate_eq_join members v
  · simp [derive_validate, memberErrors, ha, hb]

/-- Closed instance of the C1 theorem at concrete members and errors. -/
theorem derived_concat_in_order_witness :
    derive_validate ([] : List (Member Nat)) 0
        = (([] : List (Member Nat)).map (fun m =>
            (m.validate 0).map (fun e => ValidationError.add_prefix e m.name))).flatten ∧
    derive_validate
        [⟨"a", fun _ => [ValidationError.new "x" "mx"]⟩,
         ⟨"b", fun _ => [ValidationError.new "y" "my"]⟩] 0
        = [ ValidationError.add_prefix (ValidationError.new "x" "mx") "a",
            ValidationError.add_prefix (ValidationError.new "y" "my") "b"] :=
  derived_concat_in_order [] 0
    (fun _ => [ValidationError.new "x" "mx"])
    (fun _ => [ValidationError.new "y" "my"]) 0
    (ValidationError.new "x" "mx") (ValidationError.new "y" "my") rfl rfl

/-- C2: each nesting level of derived composites applies exactly one prefix
segment: a leaf error with local field `f`, held by member `innerName` of a
composite that is member `outerName` of an outer composite, is reported by
the outer composite with field `outerName.innerName.f`. -/
theorem nested_prefix_once_per_level {α β : Type}
    (outerName innerName f msg : String)
    (leafValidate : α → List ValidationError) (proj : β → α) (v : β)
    (hleaf : leafValidate (proj v) = [ValidationError.new f msg]) :
    derive_validate
        [⟨outerName, fun b => derive_validate [⟨innerName, leafValidate⟩] (proj b)⟩] v
      = [ValidationError.new (outerName ++ "." ++ innerName ++ "." ++ f) msg] := by
  simp [derive_validate, memberErrors, hleaf, ValidationError.add_prefix,
    ValidationError.new, String.append_assoc]

/-- Closed instance of the C2 theorem at a concrete two-level nesting. -/
theorem nested_prefix_once_per_level_witness :
    derive_validate
        [⟨"user", fun b => derive_validate
            [⟨"address", fun (_ : Nat) => [ValidationError.new "street" "empty"]⟩]
            (id b)⟩] (0 : Nat)
      = [ValidationError.new ("user" ++ "." ++ "address" ++ "." ++ "street") "empty"] :=
  nested_prefix_once_per_level "user" "address" "street" "empty"
    (fun _ => [ValidationError.new "street" "empty"]) id 0 rfl

/-- C3: prefixing law — for an error with field `f` and non-empty prefixes
`p` and `q`, one application gives field `p.f`, and a second application
puts the later prefix leftmost, giving field `q.p.f`. -/
theorem prefixing_law (e : ValidationError) (f p q : String)
    (hf : e.field = f) (hp : p ≠ "") (hq : q ≠ "") :
    ( ValidationError.add_prefix e p).field = p ++ "." ++ f ∧
    ( ValidationError.add_prefix ( ValidationError.add_prefix e p) q).field
      = q ++ "." ++ p ++ "." ++ f := by
  subst hf
  refine ⟨rfl, ?_⟩
  simp [ ValidationError.add_prefix, String.append_assoc]

/-- Closed instance of the C3 theorem at concrete strings. -/
theorem prefixing_law_witness :
    ( ValidationError.add_prefix (ValidationError.new "f" "m") "p").field
        = "p" ++ "." ++ "f" ∧
    ( ValidationError.add_prefix
        ( ValidationError.add_prefix (ValidationError.new "f" "m") "p") "q").field
      = "q" ++ "." ++ "p" ++ "." ++ "f" :=
  prefixing_law (ValidationError.new "f" "m") "f" "p" "q" rfl
    (by decide) (by decide)

/-- C4: prefixing changes only the field attribute; the message is
unchanged. -/
theorem add_prefix_preserves_message (e : ValidationError) (pre : String) :
    ( ValidationError.add_prefix e pre).message = e.message := rfl

/-- C5: the constructor always succeeds and stores the given field and
message verbatim, with no path prefix added. -/
theorem new_stores_verbatim (f m : String) :
    (ValidationError.new f m).field = f ∧ (ValidationError.new f m).message = m :=
  ⟨rfl, rfl⟩

/-- C6: a derived composite with zero members validates to the empty list
for any value, and one all of whose members report no errors also
validates to the empty list. -/
theorem no_errors_gives_empty {α : Type} (members : List (Member α)) (v w : α)
    (h : ∀ m ∈ members, m.validate w = []) :
    derive_validate ([] : List (Member α)) v = [] ∧ derive_validate members w = [] := by
  refine ⟨rfl, ?_⟩
  rw [derive_validate_eq_join]
  refine List.flatten_eq_nil_iff.mpr ?_
  intro l hl
  simp only [List.mem_map] at hl
  obtain ⟨m, hm, rfl⟩ := hl
  simp [memberErrors, h m hm]

/-- Closed instance of the C6 theorem with one error-free member. -/
theorem no_errors_gives_empty_witness :
    derive_validate ([] : List (Member Nat)) 0 = [] ∧
    derive_validate [(⟨"a", fun (_ : Nat) => []⟩ : Member Nat)] 0 = [] :=
  no_errors_gives_empty [⟨"a", fun _ => []⟩] 0 0
    (by intro m hm; rcases List.mem_singleton.mp hm with rfl; rfl)

/-- C7: a derived composite's validate is deterministic whenever each
member's validate is deterministic — two calls on the same unchanged value
produce equal result lists. -/
theorem validate_deterministic {α : Type} (members : List (MemberRel α)) (v : α)
    (hdet : ∀ m ∈ members, ∀ es es', m.rel v es → m.rel v es' → es = es')
    {r r' : List ValidationError}
    (h1 : DerivedValidates members v r) (h2 : DerivedValidates members v r') :
    r = r' :=
  derivedValidates_det_aux h1 r' hdet h2

/-- Closed instance of the C7 theorem with one deterministic member. -/
theorem validate_deterministic_witness :
    [ ValidationError.add_prefix (ValidationError.new "x" "m") "a"]
      = [ ValidationError.add_prefix (ValidationError.new "x" "m") "a"] :=
  validate_deterministic
    [⟨"a", fun (_ : Nat) es => es = [ValidationError.new "x" "m"]⟩] 0
    (by
      intro m hm es es' he he'
      rcases List.mem_singleton.mp hm with rfl
      exact he.trans he'.symm)
    (@DerivedValidates.cons Nat
      ⟨"a", fun _ es => es = [ValidationError.new "x" "m"]⟩ [] 0
      [ValidationError.new "x" "m"] [] rfl (DerivedValidates.nil 0))
    (@DerivedValidates.cons Nat
      ⟨"a", fun _ es => es = [ValidationError.new "x" "m"]⟩ [] 0
      [ValidationError.new "x" "m"] [] rfl (DerivedValidates.nil 0))

/-- C8: the conditional-append helper appends exactly one new error with
the given field and message when the condition is true, leaves the list
unchanged when it is false, and produces the appended list iff the
condition is true. -/
theorem validateBang_appends_iff (vec : List ValidationError)
    (fieldName message : String) :
    validateBang vec true fieldName message
        = vec ++ [ValidationError.new fieldName message] ∧
    validateBang vec false fieldName message = vec ∧
    (∀ t : Bool, validateBang vec t fieldName message
        = vec ++ [ValidationError.new fieldName message] ↔ t = true) := by
  refine ⟨rfl, rfl, ?_⟩
  intro t
  cases t with
  | true => simp [validateBang]
  | false => simp [validateBang]

/-- C9: the derived validate is total — for every member list and value it
returns some (possibly empty) list of errors; a non-empty result is a
normal return value, not an exception. -/
theorem validate_total {α : Type} (members : List (Member α)) (v : α) :
    ∃ errs : List ValidationError, derive_validate members v = errs :=
  ⟨derive_validate members v, rfl⟩

/-- C10: the empty prefix is accepted, not rejected: it sets the field to a
dot followed by the old field, producing a leading-dot path. -/
theorem add_prefix_empty_leading_dot (e : ValidationError) :
    ( ValidationError.add_prefix e "").field = "." ++ e.field := by
  simp [ ValidationError.add_prefix]
